import Mathlib

/-!
Verification of `scripts/make_amsterdam_locations.py`.

The script is a one-shot batch pipeline: it fetches a CBS neighbourhood feed
(JSON rows with `Key`, `Title`, `Municipality` fields), scrapes the Wikipedia
list of Dutch municipalities into tables, reconciles the two into a
municipality → province index, and writes one `LOCATIONS.js` file per
municipality under `out/locations/<province-slug>/<municipality-slug>/`.

The shallow embedding below models the pure data transformations of the
script.  Network transport, HTML tokenisation and file I/O are the
environment: the embedding takes the decoded feed rows and the parsed
wikitables (lists of rows of cell strings, as produced by `WikiTableParser`)
as inputs, and produces the list of file-system actions the run would
perform.  CPython iterates hash-based `set` objects in an unspecified,
per-process-randomized order; wherever the script iterates a `set`
(`sorted(neighbourhoods[code], key=str.casefold)`), the embedding takes an
explicit enumeration function `pi : List String → List String` standing for
that unspecified order, constrained to be a permutation.
-/

/-- ASCII lowercasing of one character, as Python `str.lower` acts on the
ASCII range (the only characters alive after the ASCII fold). -/
def asciiLowerChar (c : Char) : Char :=
  if 'A' ≤ c ∧ c ≤ 'Z' then Char.ofNat (c.toNat + 32) else c

/-- Model of Python `str.casefold` on the character repertoire of the data
(ASCII): per-character lowercasing. -/
def casefold (s : String) : String :=
  ⟨s.data.map asciiLowerChar⟩

/-- Characters the slug alphabet keeps: `[a-z0-9]`. -/
def isSlugAlnum (c : Char) : Bool :=
  ('a' ≤ c && c ≤ 'z') || ('0' ≤ c && c ≤ '9')

/-- Characters allowed in a finished slug: `[a-z0-9-]`. -/
def isSlugChar (c : Char) : Bool :=
  isSlugAlnum c || c = '-'

/-- One step of `re.sub(r"[^a-z0-9]+", "-", s)`: every maximal run of
non-alphanumeric characters becomes a single dash.  The flag records whether
we are already inside such a run (a dash has been emitted for it). -/
def dashRuns (inRun : Bool) : List Char → List Char
  | [] => []
  | c :: rest =>
    if isSlugAlnum c then c :: dashRuns false rest
    else if inRun then dashRuns true rest
    else '-' :: dashRuns true rest

/-- Model of `re.sub(r"-+", "-", s)`: every maximal run of dashes becomes a
single dash. -/
def squeezeDashes (inRun : Bool) : List Char → List Char
  | [] => []
  | c :: rest =>
    if c = '-' then
      if inRun then squeezeDashes true rest else '-' :: squeezeDashes true rest
    else c :: squeezeDashes false rest

/-- Python `s.strip(chars)` restricted to a character predicate: drop the
matching run at both ends. -/
def dropEnds (p : Char → Bool) (l : List Char) : List Char :=
  ((l.dropWhile p).reverse.dropWhile p).reverse

/-- Python `s.replace("&", " and ")`. -/
def expandAmpersand : List Char → List Char
  | [] => []
  | c :: rest =>
    if c = '&' then ' ' :: 'a' :: 'n' :: 'd' :: ' ' :: expandAmpersand rest
    else c :: expandAmpersand rest

/-- Model of `unicodedata.normalize("NFKD", ·)` followed by
`.encode("ascii", "ignore")`: ASCII characters survive unchanged, Latin
letters with diacritics decompose and keep their base letter, every other
non-ASCII character is dropped.  The table covers the Latin-1/Latin Extended
letters that occur in Dutch geographic names. -/
def asciiFoldChar (c : Char) : List Char :=
  if c.toNat < 128 then [c]
  else if c ∈ ['á', 'à', 'â', 'ä', 'ã', 'å', 'ā'] then ['a']
  else if c ∈ ['é', 'è', 'ê', 'ë', 'ē'] then ['e']
  else if c ∈ ['í', 'ì', 'î', 'ï'] then ['i']
  else if c ∈ ['ó', 'ò', 'ô', 'ö', 'õ'] then ['o']
  else if c ∈ ['ú', 'ù', 'û', 'ü'] then ['u']
  else if c ∈ ['ý', 'ÿ'] then ['y']
  else if c = 'ç' then ['c']
  else if c = 'ñ' then ['n']
  else if c ∈ ['Á', 'À', 'Â', 'Ä', 'Ã', 'Å'] then ['A']
  else if c ∈ ['É', 'È', 'Ê', 'Ë'] then ['E']
  else if c ∈ ['Í', 'Ì', 'Î', 'Ï'] then ['I']
  else if c ∈ ['Ó', 'Ò', 'Ô', 'Ö', 'Õ'] then ['O']
  else if c ∈ ['Ú', 'Ù', 'Û', 'Ü'] then ['U']
  else if c = 'Ç' then ['C']
  else if c = 'Ñ' then ['N']
  else []

/-- Dash test used by the final `strip("-")` of `slugify`. -/
def isDash (c : Char) : Bool :=
  c = '-'

/-- Character list of a slug before the empty fallback: NFKD + ASCII fold,
lowercase, `&` → `" and "`, collapse non-alphanumeric runs to `-`, collapse
dash runs, strip dashes at both ends. -/
def slugChars (value : String) : List Char :=
  dropEnds isDash (squeezeDashes false (dashRuns false
    (expandAmpersand (((value.data.map asciiFoldChar).flatten).map asciiLowerChar))))

/-- Embedding of `slugify` (lines 169–176 of the script): the normalization
chain of `slugChars`, falling back to `"item"` when the result is empty. -/
def slugify (value : String) : String :=
  if (slugChars value).isEmpty then "item" else ⟨slugChars value⟩

/-- Adjacent characters of a slug are never both dashes. -/
@[reducible]
def DashSeparated (l : List Char) : Prop :=
  l.Chain' (fun a b => ¬(a = '-' ∧ b = '-'))

theorem dashRuns_chars : ∀ (l : List Char) (b : Bool) (c : Char),
    c ∈ dashRuns b l → isSlugChar c = true := by
  intro l
  induction l with
  | nil => intro b c h; simp [dashRuns] at h
  | cons x rest ih =>
    intro b c h
    by_cases hx : isSlugAlnum x = true
    · simp only [dashRuns, hx, if_true, List.mem_cons] at h
      rcases h with h | h
      · subst h; simp [isSlugChar, hx]
      · exact ih false c h
    · cases b with
      | true =>
        simp only [dashRuns, hx, if_false, Bool.false_eq_true, if_true] at h
        exact ih true c h
      | false =>
        simp only [dashRuns, hx, if_false, Bool.false_eq_true, List.mem_cons] at h
        rcases h with h | h
        · subst h; decide
        · exact ih true c h

theorem squeezeDashes_chars : ∀ (l : List Char) (b : Bool) (c : Char),
    c ∈ squeezeDashes b l → c ∈ l := by
  intro l
  induction l with
  | nil => intro b c h; simp [squeezeDashes] at h
  | cons x rest ih =>
    intro b c h
    by_cases hx : x = '-'
    · subst hx
      cases b with
      | true =>
        simp only [squeezeDashes, if_true, reduceIte] at h
        exact List.mem_cons_of_mem _ (ih true c h)
      | false =>
        simp only [squeezeDashes, reduceIte, Bool.false_eq_true, List.mem_cons] at h
        rcases h with h | h
        · subst h; exact List.mem_cons_self _ _
        · exact List.mem_cons_of_mem _ (ih true c h)
    · simp only [squeezeDashes, hx, if_false, List.mem_cons] at h
      rcases h with h | h
      · subst h; exact List.mem_cons_self _ _
      · exact List.mem_cons_of_mem _ (ih false c h)

theorem mem_dropWhile_sub (p : Char → Bool) :
    ∀ (l : List Char) (c : Char), c ∈ l.dropWhile p → c ∈ l := by
  intro l
  induction l with
  | nil => intro c h; simp [List.dropWhile] at h
  | cons x rest ih =>
    intro c h
    by_cases hx : p x = true
    · simp only [List.dropWhile, hx] at h
      exact List.mem_cons_of_mem _ (ih c h)
    · simp only [List.dropWhile, hx] at h
      exact h

theorem dropWhile_head_false (p : Char → Bool) :
    ∀ (l : List Char) (c : Char), (l.dropWhile p).head? = some c → p c = false := by
  intro l
  induction l with
  | nil => intro c h; simp [List.dropWhile] at h
  | cons x rest ih =>
    intro c h
    by_cases hx : p x = true
    · simp only [List.dropWhile, hx] at h
      exact ih c h
    · simp only [List.dropWhile, hx] at h
      simp only [List.head?_cons, Option.some.injEq] at h
      subst h
      simpa using hx

theorem dropWhile_getLast?_eq (p : Char → Bool) :
    ∀ l : List Char, l.dropWhile p ≠ [] → (l.dropWhile p).getLast? = l.getLast? := by
  intro l
  induction l with
  | nil => intro h; simp [List.dropWhile] at h
  | cons x rest ih =>
    intro h
    by_cases hx : p x = true
    · simp only [List.dropWhile, hx] at h ⊢
      have hrest : rest ≠ [] := by
        intro he; subst he; simp [List.dropWhile] at h
      rw [ih h]
      cases rest with
      | nil => exact absurd rfl hrest
      | cons y t => simp [List.getLast?_cons_cons]
    · simp only [List.dropWhile, hx] at h ⊢

theorem chain'_dropWhile {R : Char → Char → Prop} (p : Char → Bool) :
    ∀ l : List Char, l.Chain' R → (l.dropWhile p).Chain' R := by
  intro l
  induction l with
  | nil => intro h; simp [List.dropWhile]
  | cons x rest ih =>
    intro h
    by_cases hx : p x = true
    · simp only [List.dropWhile, hx]
      exact ih h.tail
    · simp only [List.dropWhile, hx]
      exact h

theorem chain'_reverse_symm {R : Char → Char → Prop}
    (hsymm : ∀ a b, R a b → R b a) (l : List Char) (h : l.Chain' R) :
    l.reverse.Chain' R := by
  rw [List.chain'_reverse]
  exact List.Chain'.imp (fun a b hab => hsymm a b hab) h

theorem dashRuns_chain : ∀ (l : List Char) (b : Bool),
    DashSeparated (dashRuns b l) ∧
      (b = true → (dashRuns b l).head? ≠ some '-') := by
  intro l
  induction l with
  | nil => intro b; exact ⟨List.chain'_nil, by simp [dashRuns]⟩
  | cons x rest ih =>
    intro b
    by_cases hx : isSlugAlnum x = true
    · have hxd : x ≠ '-' := by
        intro he; subst he; simp [isSlugAlnum] at hx
      constructor
      · simp only [dashRuns, hx, if_true]
        rw [DashSeparated, List.chain'_cons']
        refine ⟨fun y _ hy => hxd hy.1, (ih false).1⟩
      · intro _
        simp only [dashRuns, hx, if_true, List.head?_cons]
        intro hc
        exact hxd (Option.some.inj hc)
    · cases b with
      | true =>
        simp only [dashRuns, hx, if_false, Bool.false_eq_true, if_true]
        exact ⟨(ih true).1, fun _ => (ih true).2 rfl⟩
      | false =>
        constructor
        · simp only [dashRuns, hx, if_false, Bool.false_eq_true]
          rw [DashSeparated, List.chain'_cons']
          refine ⟨fun y hy hconj => (ih true).2 rfl ?_, (ih true).1⟩
          rw [Option.mem_def] at hy
          rw [hy, hconj.2]
        · intro hb; cases hb

theorem squeezeDashes_chain : ∀ (l : List Char) (b : Bool),
    DashSeparated (squeezeDashes b l) ∧
      (b = true → (squeezeDashes b l).head? ≠ some '-') := by
  intro l
  induction l with
  | nil => intro b; exact ⟨List.chain'_nil, by simp [squeezeDashes]⟩
  | cons x rest ih =>
    intro b
    by_cases hx : x = '-'
    · subst hx
      cases b with
      | true =>
        simp only [squeezeDashes, reduceIte]
        exact ⟨(ih true).1, fun _ => (ih true).2 rfl⟩
      | false =>
        constructor
        · simp only [squeezeDashes, reduceIte, Bool.false_eq_true]
          rw [DashSeparated, List.chain'_cons']
          refine ⟨fun y hy hconj => (ih true).2 rfl ?_, (ih true).1⟩
          rw [Option.mem_def] at hy
          rw [hy, hconj.2]
        · intro hb; cases hb
    · constructor
      · simp only [squeezeDashes, hx, if_false]
        rw [DashSeparated, List.chain'_cons']
        exact ⟨fun y _ hy => hx hy.1, (ih false).1⟩
      · intro _
        simp only [squeezeDashes, hx, if_false, List.head?_cons]
        intro hc
        exact hx (Option.some.inj hc)

theorem dropEnds_dash_props (l : List Char) (hchain : DashSeparated l) :
    DashSeparated (dropEnds isDash l) ∧
    (∀ c, (dropEnds isDash l).head? = some c → c ≠ '-') ∧
    (∀ c, (dropEnds isDash l).getLast? = some c → c ≠ '-') ∧
    (∀ c, c ∈ dropEnds isDash l → c ∈ l) := by
  have symmR : ∀ a b : Char, ¬(a = '-' ∧ b = '-') → ¬(b = '-' ∧ a = '-') :=
    fun a b h hc => h ⟨hc.2, hc.1⟩
  have hdash : ∀ c : Char, isDash c = false → c ≠ '-' := by
    intro c h hc; subst hc; simp [isDash] at h
  have c1 : DashSeparated (l.dropWhile isDash) := chain'_dropWhile _ _ hchain
  have c2 : DashSeparated (l.dropWhile isDash).reverse := chain'_reverse_symm symmR _ c1
  have c3 : DashSeparated ((l.dropWhile isDash).reverse.dropWhile isDash) :=
    chain'_dropWhile _ _ c2
  refine ⟨chain'_reverse_symm symmR _ c3, ?_, ?_, ?_⟩
  · intro c hc
    rw [dropEnds, List.head?_reverse] at hc
    have hne : (l.dropWhile isDash).reverse.dropWhile isDash ≠ [] := by
      intro he; rw [he] at hc; simp at hc
    rw [dropWhile_getLast?_eq isDash _ hne, List.getLast?_reverse] at hc
    exact hdash c (dropWhile_head_false isDash l c hc)
  · intro c hc
    rw [dropEnds, List.getLast?_reverse] at hc
    exact hdash c (dropWhile_head_false isDash _ c hc)
  · intro c hc
    rw [dropEnds, List.mem_reverse] at hc
    have h1 := mem_dropWhile_sub isDash _ c hc
    rw [List.mem_reverse] at h1
    exact mem_dropWhile_sub isDash _ c h1

/-- C6: for every input string, `slugify` returns a nonempty string over the
alphabet `[a-z0-9-]` (hence lowercase) with no leading, trailing or doubled
dash, falling back to the placeholder `"item"` for inputs that normalize to
nothing; moreover `&` is rendered as the word `and` and accented letters are
folded to their ASCII base letters. -/
theorem spec_c6_slugify_invariants :
    (∀ v : String,
      (slugify v).data ≠ [] ∧
      (∀ c ∈ (slugify v).data, isSlugChar c = true) ∧
      (slugify v).data.head? ≠ some '-' ∧
      (slugify v).data.getLast? ≠ some '-' ∧
      DashSeparated (slugify v).data) ∧
    slugify "" = "item" ∧
    slugify "Fryslân & Co" = "fryslan-and-co" ∧
    slugify "AMSTERDAM & Curaçao" = "amsterdam-and-curacao" := by
  refine ⟨fun v => ?_, by decide, by decide, by decide⟩
  by_cases he : (slugChars v).isEmpty = true
  · rw [slugify, if_pos he]
    exact ⟨by decide, by decide, by decide, by decide, by simp [List.chain'_cons]⟩
  · rw [slugify, if_neg he]
    have hsq : DashSeparated (squeezeDashes false (dashRuns false
        (expandAmpersand (((v.data.map asciiFoldChar).flatten).map asciiLowerChar)))) :=
      (squeezeDashes_chain _ false).1
    obtain ⟨hch, hhd, hlast, hmem⟩ := dropEnds_dash_props _ hsq
    refine ⟨?_, ?_, ?_, ?_, hch⟩
    · intro hnil
      apply he
      rw [List.isEmpty_iff]
      exact hnil
    · intro c hc
      have h1 := hmem c hc
      have h2 := squeezeDashes_chars _ _ _ h1
      exact dashRuns_chars _ _ _ h2
    · intro h
      exact hhd '-' h rfl
    · intro h
      exact hlast '-' h rfl

/-- Lexicographic comparison of character lists by code point, as Python
compares strings. -/
def listLe : List Char → List Char → Bool
  | [], _ => true
  | _ :: _, [] => false
  | a :: as, b :: bs => if a < b then true else if b < a then false else listLe as bs

theorem listLe_refl : ∀ l, listLe l l = true := by
  intro l
  induction l with
  | nil => rfl
  | cons a as ih => simp [listLe, lt_irrefl, ih]

theorem listLe_total : ∀ l m, listLe l m = true ∨ listLe m l = true := by
  intro l
  induction l with
  | nil => intro m; left; rfl
  | cons a as ih =>
    intro m
    cases m with
    | nil => right; rfl
    | cons b bs =>
      rcases lt_trichotomy a b with h | h | h
      · left; simp [listLe, h]
      · subst h
        rcases ih bs with h2 | h2
        · left; simp [listLe, lt_irrefl, h2]
        · right; simp [listLe, lt_irrefl, h2]
      · right; simp [listLe, h]

theorem listLe_trans : ∀ l m n, listLe l m = true → listLe m n = true →
    listLe l n = true := by
  intro l
  induction l with
  | nil => intros; rfl
  | cons a as ih =>
    intro m n h1 h2
    cases m with
    | nil => simp [listLe] at h1
    | cons b bs =>
      cases n with
      | nil => simp [listLe] at h2
      | cons c cs =>
        rcases lt_trichotomy a b with hab | hab | hab
        · rcases lt_trichotomy b c with hbc | hbc | hbc
          · simp [listLe, lt_trans hab hbc]
          · subst hbc; simp [listLe, hab]
          · simp [listLe, asymm hbc, hbc] at h2
        · subst hab
          rcases lt_trichotomy a c with hac | hac | hac
          · simp [listLe, hac]
          · subst hac
            simp only [listLe, lt_irrefl, if_false] at h1 h2 ⊢
            exact ih _ _ h1 h2
          · simp [listLe, asymm hac, hac] at h2
        · simp [listLe, asymm hab, hab] at h1

theorem listLe_antisymm : ∀ l m, listLe l m = true → listLe m l = true → l = m := by
  intro l
  induction l with
  | nil =>
    intro m _ h2
    cases m with
    | nil => rfl
    | cons b bs => simp [listLe] at h2
  | cons a as ih =>
    intro m h1 h2
    cases m with
    | nil => simp [listLe] at h1
    | cons b bs =>
      rcases lt_trichotomy a b with hab | hab | hab
      · simp [listLe, asymm hab, hab] at h2
      · subst hab
        simp only [listLe, lt_irrefl, if_false] at h1 h2
        rw [ih bs h1 h2]
      · simp [listLe, asymm hab, hab] at h1

/-- Python string `≤` (code-point lexicographic). -/
def strLe (a b : String) : Prop :=
  listLe a.data b.data = true

instance : DecidableRel strLe :=
  fun _ _ => inferInstanceAs (Decidable (_ = true))

instance : IsTotal String strLe :=
  ⟨fun a b => listLe_total a.data b.data⟩

instance : IsTrans String strLe :=
  ⟨fun a b c => listLe_trans a.data b.data c.data⟩

theorem strLe_antisymm {a b : String} (h1 : strLe a b) (h2 : strLe b a) : a = b := by
  cases a with
  | mk da =>
    cases b with
    | mk db =>
      rw [listLe_antisymm da db h1 h2]

instance : IsAntisymm String strLe :=
  ⟨fun _ _ => strLe_antisymm⟩

/-- The `key=str.casefold` ordering used to sort neighbourhood names. -/
def cfLe (a b : String) : Prop :=
  strLe (casefold a) (casefold b)

instance : DecidableRel cfLe :=
  fun a b => inferInstanceAs (Decidable (strLe (casefold a) (casefold b)))

instance : IsTotal String cfLe :=
  ⟨fun _ _ => listLe_total _ _⟩

instance : IsTrans String cfLe :=
  ⟨fun _ _ _ => listLe_trans _ _ _⟩

/-- Python tuple comparison on `(code, title)` pairs, as used by
`sorted(muni_names.items())`. -/
def pairLe (a b : String × String) : Prop :=
  (strLe a.1 b.1 ∧ a.1 ≠ b.1) ∨ (a.1 = b.1 ∧ strLe a.2 b.2)

instance : DecidableRel pairLe :=
  fun _ _ => inferInstanceAs (Decidable (_ ∨ _))

/-- Tests whether the first list is an initial segment of the second. -/
def takesPre : List Char → List Char → Bool
  | [], _ => true
  | _ :: _, [] => false
  | a :: as, b :: bs => a = b && takesPre as bs

/-- Occurrence test for a character list inside another. -/
def hasSub (hay needle : List Char) : Bool :=
  match hay with
  | [] => needle.isEmpty
  | _ :: t => takesPre needle hay || hasSub t needle

/-- Python `needle in hay` on strings. -/
def strHasSub (hay needle : String) : Bool :=
  hasSub hay.data needle.data

/-- Python `s.startswith(pre)`. -/
def keyStarts (s pre : String) : Bool :=
  takesPre pre.data s.data

/-- Whitespace as stripped by Python `str.strip()` on the character
repertoire of the data (ASCII whitespace and the no-break space). -/
def isPyWs (c : Char) : Bool :=
  c = ' ' || c = '\t' || c = '\n' || c = '\r' || c = '\x0b' || c = '\x0c' || c = '\xa0'

/-- Python `s.strip()`. -/
def pyStrip (s : String) : String :=
  ⟨dropEnds isPyWs s.data⟩

/-- Python `(item.get(field) or "").strip()`: a missing value becomes the
empty string, then whitespace is stripped. -/
def pyField (o : Option String) : String :=
  pyStrip (o.getD "")

/-- Left-to-right non-overlapping replacement of `pat` by `rep`, fueled by
the input length (one character is consumed per step, so the fuel never runs
out on `replaceList`). -/
def replaceFuel (pat rep : List Char) : Nat → List Char → List Char
  | _, [] => []
  | 0, s => s
  | n + 1, c :: t =>
    if takesPre pat (c :: t) then rep ++ replaceFuel pat rep n ((c :: t).drop pat.length)
    else c :: replaceFuel pat rep n t

/-- Python `s.replace(pat, rep)` (for nonempty `pat`). -/
def strReplace (s pat rep : String) : String :=
  ⟨replaceFuel pat.data rep.data s.data.length s.data⟩

/-- Python `", ".join(l)`. -/
def joinComma : List String → String
  | [] => ""
  | [x] => x
  | x :: y :: t => x ++ ", " ++ joinComma (y :: t)

/-- Dictionary lookup where later bindings shadow earlier ones, the model of
a Python `dict` that is only ever read through `get`/`in`. -/
def dictGet (m : List (String × String)) (k : String) : Option String :=
  (m.reverse.find? (fun p => p.1 = k)).map (fun p => p.2)

/-- Python `d[k] = v` on a `dict` modelled as an association list with unique
keys: replace in place, append if new (CPython keeps the original insertion
position on overwrite). -/
def dictSet (m : List (String × String)) (k v : String) : List (String × String) :=
  match m with
  | [] => [(k, v)]
  | (a, b) :: rest => if a = k then (a, v) :: rest else (a, b) :: dictSet rest k v

/-- Python `neighbourhoods[code].add(title)` on a `defaultdict(set)`: the set
is modelled as its insertion-ordered support list (membership is what the
script observes, plus an enumeration whose order the model keeps abstract). -/
def nbAdd (m : List (String × List String)) (code title : String) :
    List (String × List String) :=
  match m with
  | [] => [(code, [title])]
  | (c, l) :: rest =>
    if c = code then (c, if title ∈ l then l else l ++ [title]) :: rest
    else (c, l) :: nbAdd rest code title

/-- Python `neighbourhoods.get(code, set())`. -/
def nbGet (m : List (String × List String)) (code : String) : List String :=
  match m.find? (fun p => p.1 = code) with
  | some p => p.2
  | none => []

/-- The `PROVINCE_NAME_REMAP` table of the script (lines 40–50). -/
def PROVINCE_NAME_REMAP : List (String × String) :=
  [("Noord-Brabant", "North Brabant"),
   ("Noord Brabant", "North Brabant"),
   ("Noord-Holland", "North Holland"),
   ("Noord Holland", "North Holland"),
   ("Zuid-Holland", "South Holland"),
   ("Zuid Holland", "South Holland"),
   ("Fryslân", "Friesland"),
   ("Friesland", "Friesland"),
   ("Caribisch Nederland", "Caribbean Netherlands")]

/-- The `MUNICIPALITY_OVERRIDES` table of the script (lines 55–82). -/
def MUNICIPALITY_OVERRIDES : List (String × String) :=
  [("Appingedam", "Groningen"),
   ("Beemster", "North Holland"),
   ("Bergen (L.)", "Limburg"),
   ("Bergen (NH.)", "North Holland"),
   ("Boxmeer", "North Brabant"),
   ("Brielle", "South Holland"),
   ("Cuijk", "North Brabant"),
   ("Dantumadiel", "Friesland"),
   ("De Fryske Marren", "Friesland"),
   ("Delfzijl", "Groningen"),
   ("Haaren", "North Brabant"),
   ("Grave", "North Brabant"),
   ("Heerhugowaard", "North Holland"),
   ("Hellevoetsluis", "South Holland"),
   ("Landerd", "North Brabant"),
   ("Langedijk", "North Holland"),
   ("Loppersum", "Groningen"),
   ("Mill en Sint Hubert", "North Brabant"),
   ("Nuenen, Gerwen en Nederwetten", "North Brabant"),
   ("Sint Anthonis", "North Brabant"),
   ("Tytsjerksteradiel", "Friesland"),
   ("Uden", "North Brabant"),
   ("Weesp", "North Holland"),
   ("Westvoorne", "South Holland"),
   ("'s-Gravenhage", "South Holland"),
   ("Bergen (NH)", "North Holland")]

/-- Python `PROVINCE_NAME_REMAP.get(province, province)` (the literal keys
are distinct, so first match equals the unique binding). -/
def remapProvince (p : String) : String :=
  match PROVINCE_NAME_REMAP.find? (fun q => q.1 = p) with
  | some q => q.2
  | none => p

/-- First pass of `_normalize_cell`: `\xa0` becomes a space, soft hyphens and
zero-width spaces are removed. -/
def cleanChars : List Char → List Char :=
  List.filterMap (fun c =>
    if c = '\xa0' then some ' '
    else if c = '\xad' ∨ c = '\u200b' then none
    else some c)

/-- Model of `re.sub(r"\[[^\]]*\]", "", s)` (footnote-marker removal): each
bracketed run up to the first closing bracket is deleted; an unclosed `[`
matches nothing.  Fueled by the input length (≥ one character consumed per
step). -/
def stripBracketsFuel : Nat → List Char → List Char
  | 0, l => l
  | _ + 1, [] => []
  | n + 1, c :: t =>
    if c = '[' then
      if t.any (fun d => d = ']') then
        stripBracketsFuel n ((t.dropWhile (fun d => ¬(d = ']'))).drop 1)
      else c :: t
    else c :: stripBracketsFuel n t

/-- Model of `re.sub(r"\s+", " ", s)`: every maximal whitespace run becomes
one space. -/
def wsCollapse (inRun : Bool) : List Char → List Char
  | [] => []
  | c :: rest =>
    if isPyWs c then
      if inRun then wsCollapse true rest else ' ' :: wsCollapse true rest
    else c :: wsCollapse false rest

/-- Embedding of `_normalize_cell` (lines 85–91). -/
def normalizeCell (s : String) : String :=
  ⟨dropEnds isPyWs (wsCollapse false
    (stripBracketsFuel (cleanChars s.data).length (cleanChars s.data)))⟩

/-- One row of the CBS `WijkenEnBuurten` feed, restricted to the fields the
script reads; `none` models an absent or null JSON field. -/
structure Item where
  key : Option String
  title : Option String
  municipality : Option String
deriving DecidableEq, Repr

/-- The resolved domain object built by `build_municipality_index`. -/
structure Municipality where
  code : String
  name : String
  province : String
  neighbourhoods : List String
deriving DecidableEq, Repr

/-- One iteration of the feed loop (lines 233–242): `GM`-keyed rows update
`muni_names` unconditionally; `BU`-keyed rows with a nonempty parent code and
a nonempty title join that parent's neighbourhood set; all else is ignored. -/
def feedStep (s : List (String × String) × List (String × List String)) (it : Item) :
    List (String × String) × List (String × List String) :=
  let key := pyField it.key
  let title := pyField it.title
  let mc := pyField it.municipality
  if keyStarts key "GM" = true then (dictSet s.1 key title, s.2)
  else if keyStarts key "BU" = true ∧ mc ≠ "" then
    (if title ≠ "" then (s.1, nbAdd s.2 mc title) else s)
  else s

/-- The `(muni_names, neighbourhoods)` state after the feed loop. -/
def feedState (data : List Item) :
    List (String × String) × List (String × List String) :=
  data.foldl feedStep ([], [])

/-- The `muni_names` dictionary (`GM` code → title). -/
def muniNamesOf (data : List Item) : List (String × String) :=
  (feedState data).1

/-- The `neighbourhoods` dictionary (`GM` code → set of titles, as its
insertion-ordered support list). -/
def nbSetsOf (data : List Item) : List (String × List String) :=
  (feedState data).2

/-- Table / header-row detection of `load_municipality_provinces` (lines
190–197): the first table containing a row with a cell containing
`"Gemeente"`, together with that row. -/
def findTargetTable (tables : List (List (List String))) :
    Option (List (List String) × List String) :=
  tables.findSome? (fun table =>
    (table.find? (fun row => row.any (fun cell => strHasSub cell "Gemeente"))).map
      (fun hr => (table, hr)))

/-- One row of the mapping loop (lines 210–222): skip header-like rows (any
cell containing `"Gemeente"`, which also covers the header row itself), skip
rows too short for the detected column indices, strip both cells, skip empty
values, remap the province label, bind municipality → province (later rows
shadow earlier ones). -/
def rowStep (mIdx pIdx : Nat) (m : List (String × String)) (row : List String) :
    List (String × String) :=
  if row.any (fun cell => strHasSub cell "Gemeente") then m
  else if row.length ≤ max mIdx pIdx then m
  else
    let municipality := pyStrip (row.getD mIdx "")
    let province := pyStrip (row.getD pIdx "")
    if municipality = "" ∨ province = "" then m
    else m ++ [(municipality, remapProvince province)]

/-- Embedding of `load_municipality_provinces` (lines 179–225) from the
parsed wikitables onward (download and HTML tokenisation are the
environment): locate the target table and header, detect the municipality
and province columns on the normalized header, fold the rows into a mapping,
and overlay `MUNICIPALITY_OVERRIDES` (later bindings win). -/
def loadMunicipalityProvinces (tables : List (List (List String))) :
    Except String (List (String × String)) :=
  match findTargetTable tables with
  | none => .error "Could not locate municipality table on Wikipedia page"
  | some (table, headerRow) =>
    let header := headerRow.map normalizeCell
    match header.findIdx? (fun c => strHasSub c "Gemeente"),
        header.findIdx? (fun c => strHasSub c "Provin") with
    | some mIdx, some pIdx =>
      .ok (table.foldl (rowStep mIdx pIdx) [] ++ MUNICIPALITY_OVERRIDES)
    | _, _ => .error "Could not determine header columns in municipality table"

/-- Python truthiness of `province` (`None` and `""` are falsy). -/
def pyTruthy : Option String → Bool
  | none => false
  | some s => s ≠ ""

/-- Insertion-ordered support list of a Python `set` built from a list of
elements: each distinct element once, in first-occurrence order.  Iteration
order of the actual set is unspecified; it is always some permutation of
this support, supplied by the run's enumeration parameter. -/
def setOfList (l : List String) : List String :=
  l.foldl (fun acc x => if x ∈ acc then acc else acc ++ [x]) []

/-- The support of the `fallback_variants` set of lines 253–257 (a `set` of
three expressions; the runtime scans it in its unspecified iteration
order). -/
def variantsOf (name : String) : List String :=
  setOfList
    [strReplace name " ('s-Gravenhage)" "",
     strReplace name "Gemeente " "",
     strReplace name "-" " "]

/-- The final `if not province` of the loop: an untruthy result is recorded
as unresolved (`none`). -/
def resTruthy (o : Option String) : Option String :=
  if pyTruthy o then o else none

/-- Resolution of one region-level name (lines 250–264): exact lookup, then
the first fallback variant present in the mapping — in the set-enumeration
order `pi` of this run — `none` meaning unresolved. -/
def resolveProvince (pi : List String → List String) (m : List (String × String))
    (name : String) : Option String :=
  resTruthy
    (if pyTruthy (dictGet m name) then dictGet m name
     else
       match (pi (variantsOf name)).find? (fun v => (dictGet m v).isSome) with
       | some v => dictGet m v
       | none => none)

/-- Python `sorted(muni_names.items())`. -/
def muniPairsSorted (data : List Item) : List (String × String) :=
  List.insertionSort pairLe (muniNamesOf data)

/-- The `unresolved` list accumulated by the resolution loop, given the
mapping and the run's set-enumeration order. -/
def unresolvedWith (pi : List String → List String)
    (mapping : List (String × String)) (data : List Item) : List String :=
  (muniPairsSorted data).filterMap
    (fun p => if (resolveProvince pi mapping p.2).isSome then none else some p.2)

/-- The `unresolved` list of a run (empty when the reference mapping itself
fails to load, in which case the run aborts earlier). -/
def unresolvedOf (pi : List String → List String) (data : List Item)
    (tables : List (List (List String))) : List String :=
  match loadMunicipalityProvinces tables with
  | .error _ => []
  | .ok mapping => unresolvedWith pi mapping data

/-- The `Municipality` built for one `(code, name)` pair, `none` when the
name is unresolved.  `pi` is the runtime's set-enumeration order (used both
for the fallback-variants set and for the neighbourhood set). -/
def municipalityOf (mapping : List (String × String))
    (nbs : List (String × List String)) (pi : List String → List String)
    (p : String × String) : Option Municipality :=
  (resolveProvince pi mapping p.2).map (fun prov =>
    ⟨p.1, p.2, prov, List.insertionSort cfLe (pi (nbGet nbs p.1))⟩)

/-- Embedding of `build_municipality_index` (lines 229–279). -/
def buildMunicipalityIndex (data : List Item) (tables : List (List (List String)))
    (pi : List String → List String) : Except String (List Municipality) :=
  match loadMunicipalityProvinces tables with
  | .error e => .error e
  | .ok mapping =>
    if unresolvedWith pi mapping data = [] then
      .ok ((muniPairsSorted data).filterMap (municipalityOf mapping (nbSetsOf data) pi))
    else
      .error ("Missing province mapping for: " ++
        joinComma (List.insertionSort strLe (unresolvedWith pi mapping data)))

/-- Hex digit as produced by `json.dumps` escapes (lowercase). -/
def hexDigit (n : Nat) : Char :=
  if n < 10 then Char.ofNat ('0'.toNat + n) else Char.ofNat ('a'.toNat + n - 10)

/-- Four-digit hex rendering for `\uXXXX` escapes. -/
def hex4 (n : Nat) : List Char :=
  [hexDigit (n / 4096 % 16), hexDigit (n / 256 % 16), hexDigit (n / 16 % 16),
   hexDigit (n % 16)]

/-- Escaping of one character as in `json.dumps` with its default
`ensure_ascii=True`: printable ASCII passes through, the two-character
escapes cover the usual control characters, everything else becomes
`\uXXXX` (with a surrogate pair beyond the BMP). -/
def jsonEscapeChar (c : Char) : List Char :=
  if c = '"' then ['\\', '"']
  else if c = '\\' then ['\\', '\\']
  else if c = '\n' then ['\\', 'n']
  else if c = '\t' then ['\\', 't']
  else if c = '\r' then ['\\', 'r']
  else if c.toNat = 8 then ['\\', 'b']
  else if c.toNat = 12 then ['\\', 'f']
  else if c.toNat < 32 then '\\' :: 'u' :: hex4 c.toNat
  else if c.toNat < 127 then [c]
  else if c.toNat < 65536 then '\\' :: 'u' :: hex4 c.toNat
  else
    ('\\' :: 'u' :: hex4 (55296 + (c.toNat - 65536) / 1024)) ++
      ('\\' :: 'u' :: hex4 (56320 + (c.toNat - 65536) % 1024))

/-- Python `json.dumps` of a string value. -/
def jsonDumps (s : String) : String :=
  ⟨'"' :: (s.data.map jsonEscapeChar).flatten ++ ['"']⟩

/-- The entry lines of a `LOCATIONS.js` body (lines 295–298): one
JSON-encoded `"Neighbourhood, Municipality, Province, Netherlands"` string
per neighbourhood, comma-terminated except for the last. -/
def entryLines (muniName prov : String) : List String → String
  | [] => ""
  | [n] => "  " ++ jsonDumps (n ++ ", " ++ muniName ++ ", " ++ prov ++ ", Netherlands") ++ "\n"
  | n :: n2 :: rest =>
    "  " ++ jsonDumps (n ++ ", " ++ muniName ++ ", " ++ prov ++ ", Netherlands") ++ ",\n" ++
      entryLines muniName prov (n2 :: rest)

/-- The full content written by `write_locations` (lines 293–299). -/
def locationsContent (m : Municipality) : String :=
  "LOCATIONS = [\n" ++ entryLines m.name m.province m.neighbourhoods ++ "]\n"

/-- File-system effects of a successful run, in order: remove the output
root if present, recreate it, then write each file. -/
inductive FsAct where
  | clearRoot : FsAct
  | mkdirRoot : FsAct
  | write (path : List String) (content : String) : FsAct
deriving DecidableEq, Repr

/-- Effect of `write_locations` for one municipality: nothing when it has no
neighbourhoods, else one file at
`<root>/<province-slug>/<municipality-slug>/LOCATIONS.js`. -/
def writeAct (m : Municipality) : Option FsAct :=
  if m.neighbourhoods = [] then none
  else some (.write [slugify m.province, slugify m.name, "LOCATIONS.js"]
    (locationsContent m))

/-- Embedding of `main` (lines 302–325) as the list of file-system actions
of a run: empty feed and reconciliation failures abort with an error before
the output root is touched. -/
def mainActions (data : List Item) (tables : List (List (List String)))
    (pi : List String → List String) : Except String (List FsAct) :=
  if data = [] then .error "CBS dataset returned no rows."
  else
    match buildMunicipalityIndex data tables pi with
    | .error e => .error e
    | .ok ms => .ok (FsAct.clearRoot :: FsAct.mkdirRoot :: ms.filterMap writeAct)

example : slugify "Appingedam" = "appingedam" := by decide
example : slugify "Fryslân & Co" = "fryslan-and-co" := by decide
example : slugify "  --  " = "item" := by decide
example : slugify "'s-Gravenhage" = "s-gravenhage" := by decide
example : slugify "North Holland" = "north-holland" := by decide

instance {e a : Type _} [DecidableEq e] [DecidableEq a] : DecidableEq (Except e a) :=
  fun x y =>
    match x, y with
    | .error u, .error v =>
      if h : u = v then .isTrue (congrArg Except.error h)
      else .isFalse (fun hc => h (Except.error.inj hc))
    | .ok u, .ok v =>
      if h : u = v then .isTrue (congrArg Except.ok h)
      else .isFalse (fun hc => h (Except.ok.inj hc))
    | .error _, .ok _ => .isFalse (fun hc => Except.noConfusion hc)
    | .ok _, .error _ => .isFalse (fun hc => Except.noConfusion hc)

/-- A minimal valid reference page: one wikitable whose header names the
municipality and province columns, with a single data row. -/
def tablesEx : List (List (List String)) :=
  [[["Gemeente", "Provincie"], ["Amsterdam", "Noord-Holland"]]]

/-- Feed with the region record `Appingedam` and one leaf `Centrum`. -/
def feedAppingedam : List Item :=
  [⟨some "GM0003", some "Appingedam", none⟩,
   ⟨some "BU00030001", some "Centrum", some "GM0003"⟩]

theorem dictGet_append (m1 m2 : List (String × String)) (k : String) :
    dictGet (m1 ++ m2) k =
      match dictGet m2 k with
      | some v => some v
      | none => dictGet m1 k := by
  rw [dictGet, dictGet, dictGet, List.reverse_append, List.find?_append]
  cases (m2.reverse.find? (fun p => p.1 = k)) with
  | none => simp [Option.or]
  | some q => simp [Option.or]

theorem overrides_self_lookup :
    ∀ kv ∈ MUNICIPALITY_OVERRIDES, dictGet MUNICIPALITY_OVERRIDES kv.1 = some kv.2 := by
  decide

theorem overrides_values_ne : ∀ kv ∈ MUNICIPALITY_OVERRIDES, kv.2 ≠ "" := by
  decide

theorem remap_values_ne : ∀ q ∈ PROVINCE_NAME_REMAP, q.2 ≠ "" := by
  decide

theorem remapProvince_ne (p : String) (hp : p ≠ "") : remapProvince p ≠ "" := by
  rw [remapProvince]
  cases hf : PROVINCE_NAME_REMAP.find? (fun q => q.1 = p) with
  | none => exact hp
  | some q => exact remap_values_ne q (List.mem_of_find?_eq_some hf)

theorem rowStep_values_ne (mIdx pIdx : Nat) :
    ∀ (row : List String) (m : List (String × String)),
      (∀ q ∈ m, q.2 ≠ "") → ∀ q ∈ rowStep mIdx pIdx m row, q.2 ≠ "" := by
  intro row m hm q hq
  rw [rowStep] at hq
  by_cases h1 : row.any (fun cell => strHasSub cell "Gemeente") = true
  · rw [if_pos h1] at hq; exact hm q hq
  · rw [if_neg h1] at hq
    by_cases h2 : row.length ≤ max mIdx pIdx
    · rw [if_pos h2] at hq; exact hm q hq
    · rw [if_neg h2] at hq
      by_cases h3 : pyStrip (row.getD mIdx "") = "" ∨ pyStrip (row.getD pIdx "") = ""
      · rw [if_pos h3] at hq; exact hm q hq
      · rw [if_neg h3] at hq
        push_neg at h3
        rcases List.mem_append.mp hq with h | h
        · exact hm q h
        · rcases List.mem_singleton.mp h with rfl
          exact remapProvince_ne _ h3.2

theorem rowFold_values_ne (mIdx pIdx : Nat) :
    ∀ (rows : List (List String)) (m : List (String × String)),
      (∀ q ∈ m, q.2 ≠ "") →
      ∀ q ∈ rows.foldl (rowStep mIdx pIdx) m, q.2 ≠ "" := by
  intro rows
  induction rows with
  | nil => intro m hm; exact hm
  | cons row rest ih =>
    intro m hm
    exact ih _ (rowStep_values_ne mIdx pIdx row m hm)

/-- Every successfully loaded mapping is a reference-sourced base with the
override table appended after it. -/
theorem load_ok_shape (tables : List (List (List String))) (m : List (String × String))
    (h : loadMunicipalityProvinces tables = .ok m) :
    ∃ base, m = base ++ MUNICIPALITY_OVERRIDES ∧ ∀ q ∈ base, q.2 ≠ "" := by
  rw [loadMunicipalityProvinces] at h
  cases hft : findTargetTable tables with
  | none => rw [hft] at h; cases h
  | some tp =>
    rw [hft] at h
    obtain ⟨table, headerRow⟩ := tp
    cases hm1 : (headerRow.map normalizeCell).findIdx? (fun c => strHasSub c "Gemeente") with
    | none => simp only [hm1] at h; cases h
    | some mIdx =>
      cases hp1 : (headerRow.map normalizeCell).findIdx? (fun c => strHasSub c "Provin") with
      | none => simp only [hm1, hp1] at h; cases h
      | some pIdx =>
        simp only [hm1, hp1] at h
        refine ⟨table.foldl (rowStep mIdx pIdx) [], ?_, ?_⟩
        · exact (Except.ok.inj h).symm
        · exact rowFold_values_ne mIdx pIdx table [] (by simp)

theorem load_ok_values_ne (tables : List (List (List String))) (m : List (String × String))
    (h : loadMunicipalityProvinces tables = .ok m) : ∀ q ∈ m, q.2 ≠ "" := by
  obtain ⟨base, rfl, hbase⟩ := load_ok_shape tables m h
  intro q hq
  rcases List.mem_append.mp hq with h | h
  · exact hbase q h
  · exact overrides_values_ne q h

theorem dictGet_mem (m : List (String × String)) (k w : String)
    (h : dictGet m k = some w) : (k, w) ∈ m := by
  rw [dictGet] at h
  cases hf : m.reverse.find? (fun p => p.1 = k) with
  | none => rw [hf] at h; cases h
  | some q =>
    rw [hf] at h
    have hq1 : q.1 = k := by simpa using List.find?_some hf
    have hq2 : q.2 = w := by simpa using h
    have hmem : q ∈ m := List.mem_reverse.mp (List.mem_of_find?_eq_some hf)
    rw [← hq1, ← hq2]
    exact hmem

theorem pyTruthy_some {v : String} (hv : v ≠ "") : pyTruthy (some v) = true := by
  simp [pyTruthy, hv]

/-- C3: for any entity name listed in the override table, the loaded mapping
and the resolution both yield the override's province — under every
set-enumeration order, the exact lookup already succeeding — regardless of
what the reference table said for that name: the overrides are appended
after the reference-sourced bindings and later bindings win. -/
theorem spec_c3_override_precedence (tables : List (List (List String)))
    (m : List (String × String)) (k v : String)
    (hload : loadMunicipalityProvinces tables = .ok m)
    (hmem : (k, v) ∈ MUNICIPALITY_OVERRIDES) :
    dictGet m k = some v ∧
    ∀ pi : List String → List String, resolveProvince pi m k = some v := by
  obtain ⟨base, rfl, -⟩ := load_ok_shape tables m hload
  have hov : dictGet MUNICIPALITY_OVERRIDES k = some v := overrides_self_lookup (k, v) hmem
  have hget : dictGet (base ++ MUNICIPALITY_OVERRIDES) k = some v := by
    rw [dictGet_append, hov]
  refine ⟨hget, fun pi => ?_⟩
  have hv : v ≠ "" := overrides_values_ne (k, v) hmem
  rw [resolveProvince]
  simp only [hget, pyTruthy_some hv, if_true, resTruthy]

theorem spec_c3_override_precedence_witness :
    loadMunicipalityProvinces tablesEx =
      .ok ([("Amsterdam", "North Holland")] ++ MUNICIPALITY_OVERRIDES) ∧
    ("Appingedam", "Groningen") ∈ MUNICIPALITY_OVERRIDES ∧
    dictGet ([("Amsterdam", "North Holland")] ++ MUNICIPALITY_OVERRIDES) "Appingedam" =
      some "Groningen" ∧
    resolveProvince id ([("Amsterdam", "North Holland")] ++ MUNICIPALITY_OVERRIDES)
      "Appingedam" = some "Groningen" := by
  refine ⟨by decide, by decide, ?_, ?_⟩
  · exact (spec_c3_override_precedence tablesEx _ "Appingedam" "Groningen"
      (by decide) (by decide)).1
  · exact (spec_c3_override_precedence tablesEx _ "Appingedam" "Groningen"
      (by decide) (by decide)).2 id

/-- C7: on a feed with the single region record `Appingedam` (absent from
the reference table, mapped to `Groningen` by the override table) and the
single leaf `Centrum` parented to it, the run performs exactly one write, at
`groningen/appingedam/LOCATIONS.js`, containing the single entry
`"Centrum, Appingedam, Groningen, Netherlands"`. -/
theorem spec_c7_end_to_end :
    ("Appingedam", "Groningen") ∈ MUNICIPALITY_OVERRIDES ∧
    mainActions feedAppingedam tablesEx id =
      .ok [.clearRoot, .mkdirRoot,
        .write ["groningen", "appingedam", "LOCATIONS.js"]
          "LOCATIONS = [\n  \"Centrum, Appingedam, Groningen, Netherlands\"\n]\n"] := by
  exact ⟨by decide, by decide⟩

/-- C10: a reference-table data row with fewer cells than needed to cover
the detected municipality and province column indices is skipped and
contributes no mapping entry (cell access therefore never goes out of
bounds). -/
theorem spec_c10_short_row_skipped (mIdx pIdx : Nat) (m : List (String × String))
    (row : List String) (h : row.length ≤ max mIdx pIdx) :
    rowStep mIdx pIdx m row = m := by
  rw [rowStep]
  by_cases hg : row.any (fun cell => strHasSub cell "Gemeente") = true
  · rw [if_pos hg]
  · rw [if_neg hg, if_pos h]

theorem spec_c10_short_row_skipped_witness :
    (["Urk"] : List String).length ≤ max 0 1 ∧
    rowStep 0 1 [("A", "B")] ["Urk"] = [("A", "B")] :=
  ⟨by decide, spec_c10_short_row_skipped 0 1 [("A", "B")] ["Urk"] (by decide)⟩

/-- C1: resolving a region-level name first tries the exact name in the
mapping; failing that, the normalized variants (parenthetical suffix
removed, generic prefix removed, hyphens replaced by spaces), the first
variant present in the mapping — in whatever order the runtime enumerates
the variants set — supplying the province; with no variant present the
result is `none`, which the build loop records as unresolved. -/
theorem spec_c1_resolution_order (tables : List (List (List String)))
    (m : List (String × String)) (name : String)
    (pi : List String → List String)
    (hload : loadMunicipalityProvinces tables = .ok m) :
    resolveProvince pi m name =
      match dictGet m name with
      | some p => some p
      | none =>
        match (pi (variantsOf name)).find? (fun v => (dictGet m v).isSome) with
        | some v => dictGet m v
        | none => none := by
  have hvals := load_ok_values_ne tables m hload
  cases h0 : dictGet m name with
  | some p =>
    have hp : p ≠ "" := hvals _ (dictGet_mem m name p h0)
    rw [resolveProvince]
    simp only [h0, pyTruthy_some hp, if_true, resTruthy]
  | none =>
    rw [resolveProvince]
    cases hf : (pi (variantsOf name)).find? (fun v => (dictGet m v).isSome) with
    | none => simp [resTruthy, pyTruthy, h0, hf]
    | some v =>
      have hsome : (dictGet m v).isSome = true := by simpa using List.find?_some hf
      obtain ⟨w, hw⟩ := Option.isSome_iff_exists.mp hsome
      have hwne : w ≠ "" := hvals _ (dictGet_mem m v w hw)
      simp [resTruthy, pyTruthy, h0, hf, hw, hwne]

theorem spec_c1_resolution_order_witness :
    loadMunicipalityProvinces tablesEx =
      .ok ([("Amsterdam", "North Holland")] ++ MUNICIPALITY_OVERRIDES) ∧
    resolveProvince id ([("Amsterdam", "North Holland")] ++ MUNICIPALITY_OVERRIDES)
        "Den-Haag" =
      match dictGet ([("Amsterdam", "North Holland")] ++ MUNICIPALITY_OVERRIDES)
          "Den-Haag" with
      | some p => some p
      | none =>
        match (id (variantsOf "Den-Haag")).find?
            (fun v => (dictGet ([("Amsterdam", "North Holland")] ++
              MUNICIPALITY_OVERRIDES) v).isSome) with
        | some v => dictGet ([("Amsterdam", "North Holland")] ++
            MUNICIPALITY_OVERRIDES) v
        | none => none :=
  ⟨by decide, spec_c1_resolution_order tablesEx _ "Den-Haag" id (by decide)⟩

/-- C5 counterexample: a region-level (`GM`) row whose title is empty after
stripping is still entered into the municipality index (only leaf-level
rows check for an empty title), so such a row does contribute to the index. -/
theorem spec_c5_cex_empty_title_gm_row_indexed :
    pyField (some " ") = "" ∧
    muniNamesOf [⟨some "GM0001", some " ", none⟩] = [("GM0001", "")] ∧
    muniNamesOf [⟨some "GM0001", some " ", none⟩] ≠ [] := by
  exact ⟨by decide, by decide, by decide⟩

theorem bu_not_gm (k : String) (h : keyStarts k "BU" = true) :
    keyStarts k "GM" = false := by
  cases k with
  | mk data =>
    cases data with
    | nil => simp [keyStarts, takesPre] at h
    | cons c rest =>
      have hc : c = 'B' := by
        rw [keyStarts] at h
        simp only [takesPre, Bool.and_eq_true, decide_eq_true_eq] at h
        exact h.1.symm
      subst hc
      rw [keyStarts]
      simp [takesPre]

theorem dictSet_self_mem : ∀ (m : List (String × String)) (k v : String),
    ∃ w, (k, w) ∈ dictSet m k v := by
  intro m
  induction m with
  | nil => intro k v; exact ⟨v, List.mem_singleton.mpr rfl⟩
  | cons p rest ih =>
    intro k v
    obtain ⟨a, b⟩ := p
    by_cases ha : a = k
    · subst ha
      rw [dictSet, if_pos rfl]
      exact ⟨v, List.mem_cons_self _ _⟩
    · rw [dictSet, if_neg ha]
      obtain ⟨w, hw⟩ := ih k v
      exact ⟨w, List.mem_cons_of_mem _ hw⟩

theorem dictSet_key_mono : ∀ (m : List (String × String)) (k v k' : String),
    (∃ w, (k', w) ∈ m) → ∃ w, (k', w) ∈ dictSet m k v := by
  intro m
  induction m with
  | nil => intro k v k' h; obtain ⟨w, hw⟩ := h; simp at hw
  | cons p rest ih =>
    intro k v k' h
    obtain ⟨a, b⟩ := p
    obtain ⟨w, hw⟩ := h
    by_cases ha : a = k
    · subst ha
      rw [dictSet, if_pos rfl]
      rcases List.mem_cons.mp hw with he | ht
      · have : k' = a := congrArg Prod.fst he
        subst this
        exact ⟨v, List.mem_cons_self _ _⟩
      · exact ⟨w, List.mem_cons_of_mem _ ht⟩
    · rw [dictSet, if_neg ha]
      rcases List.mem_cons.mp hw with he | ht
      · exact ⟨w, List.mem_cons.mpr (Or.inl he)⟩
      · obtain ⟨w2, hw2⟩ := ih k v k' ⟨w, ht⟩
        exact ⟨w2, List.mem_cons_of_mem _ hw2⟩

theorem feedStep_key_mono (s : List (String × String) × List (String × List String))
    (it : Item) (k' : String) (h : ∃ w, (k', w) ∈ s.1) :
    ∃ w, (k', w) ∈ (feedStep s it).1 := by
  rw [feedStep]
  by_cases h1 : keyStarts (pyField it.key) "GM" = true
  · simp only [h1, if_true]
    exact dictSet_key_mono s.1 _ _ k' h
  · simp only [h1, Bool.false_eq_true, if_false]
    by_cases h2 : keyStarts (pyField it.key) "BU" = true ∧ pyField it.municipality ≠ ""
    · rw [if_pos h2]
      by_cases h3 : pyField it.title ≠ ""
      · rw [if_pos h3]; exact h
      · rw [if_neg h3]; exact h
    · rw [if_neg h2]; exact h

theorem feedFold_key_mono : ∀ (d : List Item)
    (s : List (String × String) × List (String × List String)) (k' : String),
    (∃ w, (k', w) ∈ s.1) → ∃ w, (k', w) ∈ (d.foldl feedStep s).1 := by
  intro d
  induction d with
  | nil => intro s k' h; exact h
  | cons it rest ih =>
    intro s k' h
    exact ih _ k' (feedStep_key_mono s it k' h)

theorem feedStep_gm_mem (s : List (String × String) × List (String × List String))
    (it : Item) (h : keyStarts (pyField it.key) "GM" = true) :
    ∃ w, (pyField it.key, w) ∈ (feedStep s it).1 := by
  rw [feedStep]
  simp only [h, if_true]
  exact dictSet_self_mem s.1 _ _

/-- C5 amended: a leaf-level (`BU`) feed row with an empty stripped title or
an empty stripped parent reference contributes nothing at all to the feed
state; region-level (`GM`) rows, by contrast, always enter the municipality
index, empty title or not. -/
theorem spec_c5_amended_leaf_skip (d1 d2 : List Item) (it : Item)
    (hbu : keyStarts (pyField it.key) "BU" = true)
    (hskip : pyField it.title = "" ∨ pyField it.municipality = "") :
    feedState (d1 ++ it :: d2) = feedState (d1 ++ d2) ∧
    (∀ (d : List Item), ∀ it2 ∈ d, keyStarts (pyField it2.key) "GM" = true →
      ∃ w, (pyField it2.key, w) ∈ muniNamesOf d) := by
  constructor
  · have hstep : ∀ s, feedStep s it = s := by
      intro s
      rw [feedStep]
      rw [if_neg (by simp [bu_not_gm _ hbu])]
      rcases hskip with h | h
      · by_cases h2 : keyStarts (pyField it.key) "BU" = true ∧ pyField it.municipality ≠ ""
        · rw [if_pos h2, if_neg (by simp [h])]
        · rw [if_neg h2]
      · rw [if_neg (by intro hc; exact hc.2 h)]
    rw [feedState, feedState, List.foldl_append, List.foldl_append]
    rw [List.foldl_cons, hstep]
  · intro d it2 hmem hgm
    obtain ⟨s1, s2, rfl⟩ := List.append_of_mem hmem
    rw [muniNamesOf, feedState, List.foldl_append, List.foldl_cons]
    exact feedFold_key_mono s2 _ _ (feedStep_gm_mem _ it2 hgm)

theorem spec_c5_amended_leaf_skip_witness :
    keyStarts (pyField (some "BU0001")) "BU" = true ∧
    pyField (some " ") = "" ∧
    feedState [⟨some "GM0001", some "Urk", none⟩,
        ⟨some "BU0001", some " ", some "GM0001"⟩] =
      feedState [⟨some "GM0001", some "Urk", none⟩] := by
  refine ⟨by decide, by decide, ?_⟩
  exact (spec_c5_amended_leaf_skip [⟨some "GM0001", some "Urk", none⟩] []
    ⟨some "BU0001", some " ", some "GM0001"⟩ (by decide) (Or.inl (by decide))).1

/-- Feed with two distinct region codes sharing one unresolvable title. -/
def feedAtlantis : List Item :=
  [⟨some "GM0001", some "Atlantis", none⟩,
   ⟨some "GM0002", some "Atlantis", none⟩]

/-- C2 counterexample: with two region codes both titled `Atlantis` (a name
no mapping resolves), the abort message lists the name twice — sorted, but
not deduplicated as the claim states. -/
theorem spec_c2_cex_message_not_dedup :
    mainActions feedAtlantis tablesEx id =
      .error "Missing province mapping for: Atlantis, Atlantis" ∧
    unresolvedOf id feedAtlantis tablesEx = ["Atlantis", "Atlantis"] ∧
    ¬ (List.insertionSort strLe (unresolvedOf id feedAtlantis tablesEx)).Nodup := by
  refine ⟨by decide, by decide, ?_⟩
  intro h
  have he : List.insertionSort strLe (unresolvedOf id feedAtlantis tablesEx) =
      ["Atlantis", "Atlantis"] := by decide
  rw [he] at h
  simp [List.nodup_cons] at h

/-- C2 amended: when any region-level record is unresolved, the run aborts
with a message listing every unresolved name in sorted order with
multiplicity (duplicates under distinct codes are kept), and the error
precedes every file-system action: no clearing, creation or write occurs. -/
theorem spec_c2_amended_abort (data : List Item) (tables : List (List (List String)))
    (pi : List String → List String) (mapping : List (String × String))
    (hload : loadMunicipalityProvinces tables = .ok mapping)
    (hunres : unresolvedWith pi mapping data ≠ []) :
    mainActions data tables pi =
      .error ("Missing province mapping for: " ++
        joinComma (List.insertionSort strLe (unresolvedWith pi mapping data))) ∧
    (List.insertionSort strLe (unresolvedWith pi mapping data)).Sorted strLe ∧
    (List.insertionSort strLe (unresolvedWith pi mapping data)).Perm
      (unresolvedWith pi mapping data) := by
  refine ⟨?_, List.sorted_insertionSort strLe _, List.perm_insertionSort strLe _⟩
  have hdata : ¬(data = []) := by
    intro he
    subst he
    exact hunres rfl
  rw [mainActions, if_neg hdata]
  rw [buildMunicipalityIndex, hload]
  dsimp only
  rw [if_neg hunres]

theorem spec_c2_amended_abort_witness :
    loadMunicipalityProvinces tablesEx =
      .ok ([("Amsterdam", "North Holland")] ++ MUNICIPALITY_OVERRIDES) ∧
    unresolvedWith id ([("Amsterdam", "North Holland")] ++ MUNICIPALITY_OVERRIDES)
      feedAtlantis ≠ [] ∧
    (mainActions feedAtlantis tablesEx id =
      .error ("Missing province mapping for: " ++
        joinComma (List.insertionSort strLe
          (unresolvedWith id ([("Amsterdam", "North Holland")] ++ MUNICIPALITY_OVERRIDES)
            feedAtlantis))) ∧
    (List.insertionSort strLe
      (unresolvedWith id ([("Amsterdam", "North Holland")] ++ MUNICIPALITY_OVERRIDES)
        feedAtlantis)).Sorted strLe ∧
    (List.insertionSort strLe
      (unresolvedWith id ([("Amsterdam", "North Holland")] ++ MUNICIPALITY_OVERRIDES)
        feedAtlantis)).Perm
      (unresolvedWith id ([("Amsterdam", "North Holland")] ++ MUNICIPALITY_OVERRIDES)
        feedAtlantis)) :=
  ⟨by decide, by decide,
    spec_c2_amended_abort feedAtlantis tablesEx id _ (by decide) (by decide)⟩

theorem nbAdd_nodup : ∀ (m : List (String × List String)) (code title : String),
    (∀ q ∈ m, q.2.Nodup) → ∀ q ∈ nbAdd m code title, q.2.Nodup := by
  intro m
  induction m with
  | nil =>
    intro code title _ q hq
    rw [nbAdd] at hq
    rcases List.mem_singleton.mp hq with rfl
    simp
  | cons p rest ih =>
    intro code title hm q hq
    obtain ⟨c, l⟩ := p
    by_cases hc : c = code
    · rw [nbAdd, if_pos hc] at hq
      rcases List.mem_cons.mp hq with he | ht
      · subst he
        by_cases htl : title ∈ l
        · simpa [htl] using hm (c, l) (List.mem_cons_self _ _)
        · have hl : l.Nodup := hm (c, l) (List.mem_cons_self _ _)
          simp only [htl, if_false]
          refine List.nodup_append.mpr ⟨hl, List.nodup_singleton _, ?_⟩
          intro a ha hb
          rcases List.mem_singleton.mp hb with rfl
          exact htl ha
      · exact hm q (List.mem_cons_of_mem _ ht)
    · rw [nbAdd, if_neg hc] at hq
      rcases List.mem_cons.mp hq with he | ht
      · subst he
        exact hm (c, l) (List.mem_cons_self _ _)
      · exact ih code title (fun r hr => hm r (List.mem_cons_of_mem _ hr)) q ht

theorem feedStep_nodup (s : List (String × String) × List (String × List String))
    (it : Item) (hs : ∀ q ∈ s.2, q.2.Nodup) :
    ∀ q ∈ (feedStep s it).2, q.2.Nodup := by
  rw [feedStep]
  by_cases h1 : keyStarts (pyField it.key) "GM" = true
  · simp only [h1, if_true]
    exact hs
  · simp only [h1, Bool.false_eq_true, if_false]
    by_cases h2 : keyStarts (pyField it.key) "BU" = true ∧ pyField it.municipality ≠ ""
    · rw [if_pos h2]
      by_cases h3 : pyField it.title ≠ ""
      · rw [if_pos h3]
        exact nbAdd_nodup s.2 _ _ hs
      · rw [if_neg h3]; exact hs
    · rw [if_neg h2]; exact hs

theorem feedFold_nodup : ∀ (d : List Item)
    (s : List (String × String) × List (String × List String)),
    (∀ q ∈ s.2, q.2.Nodup) → ∀ q ∈ (d.foldl feedStep s).2, q.2.Nodup := by
  intro d
  induction d with
  | nil => intro s hs; exact hs
  | cons it rest ih =>
    intro s hs
    exact ih _ (feedStep_nodup s it hs)

theorem nbSets_nodup (data : List Item) : ∀ q ∈ nbSetsOf data, q.2.Nodup := by
  rw [nbSetsOf, feedState]
  exact feedFold_nodup data ([], []) (by simp)

theorem nbGet_nodup (data : List Item) (code : String) :
    (nbGet (nbSetsOf data) code).Nodup := by
  rw [nbGet]
  cases hf : (nbSetsOf data).find? (fun p => p.1 = code) with
  | none => simp
  | some q => exact nbSets_nodup data q (List.mem_of_find?_eq_some hf)

/-- A successful build comes from a loaded mapping, an empty unresolved
list, and the per-pair `municipalityOf` construction. -/
theorem build_ok_shape (data : List Item) (tables : List (List (List String)))
    (pi : List String → List String) (ms : List Municipality)
    (h : buildMunicipalityIndex data tables pi = .ok ms) :
    ∃ mapping, loadMunicipalityProvinces tables = .ok mapping ∧
      unresolvedWith pi mapping data = [] ∧
      ms = (muniPairsSorted data).filterMap
        (municipalityOf mapping (nbSetsOf data) pi) := by
  cases hload : loadMunicipalityProvinces tables with
  | error e =>
    rw [buildMunicipalityIndex, hload] at h
    cases h
  | ok mapping =>
    rw [buildMunicipalityIndex, hload] at h
    dsimp only at h
    by_cases hu : unresolvedWith pi mapping data = []
    · rw [if_pos hu] at h
      exact ⟨mapping, rfl, hu, (Except.ok.inj h).symm⟩
    · rw [if_neg hu] at h
      cases h

/-- C4 counterexample: two leaf titles differing only in case both survive
(the set deduplicates by exact string), so the built neighbourhood list
holds two entries that are equal under case-insensitive comparison. -/
theorem spec_c4_cex_case_insensitive_duplicates :
    buildMunicipalityIndex
        [⟨some "GM0003", some "Appingedam", none⟩,
         ⟨some "BU00030001", some "Centrum", some "GM0003"⟩,
         ⟨some "BU00030002", some "CENTRUM", some "GM0003"⟩] tablesEx id =
      .ok [⟨"GM0003", "Appingedam", "Groningen", ["Centrum", "CENTRUM"]⟩] ∧
    casefold "Centrum" = casefold "CENTRUM" ∧
    "Centrum" ≠ "CENTRUM" := by
  exact ⟨by decide, by decide, by decide⟩

/-- C4 amended: for every municipality of a successful build, the
neighbourhood list has no two entries equal as exact strings (entries that
differ only in case may coexist) and is sorted by the casefolded key. -/
theorem spec_c4_amended_nodup_sorted (data : List Item)
    (tables : List (List (List String))) (pi : List String → List String)
    (ms : List Municipality) (m : Municipality)
    (hpi : ∀ l : List String, (pi l).Perm l)
    (hbuild : buildMunicipalityIndex data tables pi = .ok ms)
    (hm : m ∈ ms) :
    m.neighbourhoods.Nodup ∧ m.neighbourhoods.Sorted cfLe := by
  obtain ⟨mapping, hload, hu, rfl⟩ := build_ok_shape data tables pi ms hbuild
  obtain ⟨p, hp, hsome⟩ := List.mem_filterMap.mp hm
  rw [municipalityOf] at hsome
  obtain ⟨prov, hprov, hmk⟩ := Option.map_eq_some'.mp hsome
  rw [← hmk]
  constructor
  · exact (((List.perm_insertionSort cfLe _).trans (hpi _)).symm).nodup
      (nbGet_nodup data p.1)
  · exact List.sorted_insertionSort cfLe _

theorem spec_c4_amended_nodup_sorted_witness :
    buildMunicipalityIndex feedAppingedam tablesEx id =
      .ok [⟨"GM0003", "Appingedam", "Groningen", ["Centrum"]⟩] ∧
    (Municipality.mk "GM0003" "Appingedam" "Groningen" ["Centrum"]) ∈
      [Municipality.mk "GM0003" "Appingedam" "Groningen" ["Centrum"]] ∧
    ((Municipality.mk "GM0003" "Appingedam" "Groningen"
        ["Centrum"]).neighbourhoods.Nodup ∧
      (Municipality.mk "GM0003" "Appingedam" "Groningen"
        ["Centrum"]).neighbourhoods.Sorted cfLe) :=
  ⟨by decide, by decide,
    spec_c4_amended_nodup_sorted feedAppingedam tablesEx id
      [Municipality.mk "GM0003" "Appingedam" "Groningen" ["Centrum"]]
      (Municipality.mk "GM0003" "Appingedam" "Groningen" ["Centrum"])
      (fun l => List.Perm.refl l) (by decide) (by decide)⟩

/-- Two sorted lists that are permutations of each other are equal, given
antisymmetry of the order on their members. -/
theorem sorted_eq_of_perm_antisymmOn {r : String → String → Prop} :
    ∀ (l1 l2 : List String), l1.Perm l2 → l1.Sorted r → l2.Sorted r →
    (∀ a ∈ l1, ∀ b ∈ l1, r a b → r b a → a = b) → l1 = l2 := by
  intro l1
  induction l1 with
  | nil =>
    intro l2 hp _ _ _
    exact (hp.symm.eq_nil).symm
  | cons a t1 ih =>
    intro l2 hp hs1 hs2 hanti
    cases l2 with
    | nil => exact absurd hp.eq_nil (List.cons_ne_nil a t1)
    | cons b t2 =>
      have hab : a = b := by
        by_cases heq : a = b
        · exact heq
        · have ha2 : a ∈ b :: t2 := hp.mem_iff.mp (List.mem_cons_self a t1)
          have hb1 : b ∈ a :: t1 := hp.mem_iff.mpr (List.mem_cons_self b t2)
          have hat2 : a ∈ t2 := by
            rcases List.mem_cons.mp ha2 with h | h
            · exact absurd h heq
            · exact h
          have hbt1 : b ∈ t1 := by
            rcases List.mem_cons.mp hb1 with h | h
            · exact absurd h.symm heq
            · exact h
          have hrab : r a b := List.rel_of_sorted_cons hs1 b hbt1
          have hrba : r b a := List.rel_of_sorted_cons hs2 a hat2
          exact hanti a (List.mem_cons_self a t1) b (List.mem_cons_of_mem a hbt1)
            hrab hrba
      subst hab
      have ht : t1 = t2 :=
        ih t2 hp.cons_inv hs1.of_cons hs2.of_cons
          (fun x hx y hy hxy hyx =>
            hanti x (List.mem_cons_of_mem a hx) y (List.mem_cons_of_mem a hy) hxy hyx)
      rw [ht]

/-- Sorting by the casefold key erases any difference of enumeration order,
provided casefold is injective on the underlying set. -/
theorem insertionSort_cf_eq (l l1 l2 : List String)
    (hp1 : l1.Perm l) (hp2 : l2.Perm l)
    (hinj : ∀ a ∈ l, ∀ b ∈ l, casefold a = casefold b → a = b) :
    List.insertionSort cfLe l1 = List.insertionSort cfLe l2 := by
  apply sorted_eq_of_perm_antisymmOn
  · exact (List.perm_insertionSort cfLe l1).trans
      (hp1.trans (hp2.symm.trans (List.perm_insertionSort cfLe l2).symm))
  · exact List.sorted_insertionSort cfLe l1
  · exact List.sorted_insertionSort cfLe l2
  · intro x hx y hy hxy hyx
    have hx2 : x ∈ l := hp1.mem_iff.mp ((List.perm_insertionSort cfLe l1).mem_iff.mp hx)
    have hy2 : y ∈ l := hp1.mem_iff.mp ((List.perm_insertionSort cfLe l1).mem_iff.mp hy)
    exact hinj x hx2 y hy2 (strLe_antisymm hxy hyx)

/-- An admissible set-enumeration order: it returns some permutation of the
underlying support list. -/
def ValidEnum (pi : List String → List String) : Prop :=
  ∀ l : List String, (pi l).Perm l

/-- Casefold distinguishes the members of every neighbourhood set of the
feed. -/
@[reducible]
def CfInjOn (data : List Item) : Prop :=
  ∀ q ∈ nbSetsOf data, ∀ a ∈ q.2, ∀ b ∈ q.2, casefold a = casefold b → a = b

theorem nbGet_inj (data : List Item) (hinj : CfInjOn data) (code : String) :
    ∀ a ∈ nbGet (nbSetsOf data) code, ∀ b ∈ nbGet (nbSetsOf data) code,
      casefold a = casefold b → a = b := by
  rw [nbGet]
  cases hf : (nbSetsOf data).find? (fun p => p.1 = code) with
  | none => simp
  | some q => exact hinj q (List.mem_of_find?_eq_some hf)

/-- The variant lookups of a region name cannot disagree: any two variants
of any region-level name of the feed that are both present in the mapping
are bound to the same value.  (When this fails, which variant supplies the
province depends on the runtime's set-iteration order.) -/
@[reducible]
def VariantsAgree (mapping : List (String × String)) (data : List Item) : Prop :=
  ∀ p ∈ muniPairsSorted data, ∀ v1 ∈ variantsOf p.2, ∀ v2 ∈ variantsOf p.2,
    (dictGet mapping v1).isSome = true → (dictGet mapping v2).isSome = true →
    dictGet mapping v1 = dictGet mapping v2

/-- Resolution is independent of the enumeration order of the
fallback-variants set exactly when the variants present in the mapping agree
on their value. -/
theorem resolveProvince_enum_congr (mapping : List (String × String)) (name : String)
    (pi1 pi2 : List String → List String)
    (h1 : ValidEnum pi1) (h2 : ValidEnum pi2)
    (hagree : ∀ v1 ∈ variantsOf name, ∀ v2 ∈ variantsOf name,
      (dictGet mapping v1).isSome = true → (dictGet mapping v2).isSome = true →
      dictGet mapping v1 = dictGet mapping v2) :
    resolveProvince pi1 mapping name = resolveProvince pi2 mapping name := by
  have hfind :
      (match (pi1 (variantsOf name)).find? (fun v => (dictGet mapping v).isSome) with
        | some v => dictGet mapping v
        | none => none) =
      (match (pi2 (variantsOf name)).find? (fun v => (dictGet mapping v).isSome) with
        | some v => dictGet mapping v
        | none => none) := by
    cases hf1 : (pi1 (variantsOf name)).find? (fun v => (dictGet mapping v).isSome) with
    | none =>
      cases hf2 : (pi2 (variantsOf name)).find? (fun v => (dictGet mapping v).isSome) with
      | none => rfl
      | some v2 =>
        exfalso
        have hp2 : (dictGet mapping v2).isSome = true := by
          simpa using List.find?_some hf2
        have hv2 : v2 ∈ pi1 (variantsOf name) :=
          (h1 _).mem_iff.mpr ((h2 _).mem_iff.mp (List.mem_of_find?_eq_some hf2))
        exact absurd hp2 (by simpa using List.find?_eq_none.mp hf1 v2 hv2)
    | some v1 =>
      have hp1 : (dictGet mapping v1).isSome = true := by
        simpa using List.find?_some hf1
      have hv1 : v1 ∈ variantsOf name :=
        (h1 _).mem_iff.mp (List.mem_of_find?_eq_some hf1)
      cases hf2 : (pi2 (variantsOf name)).find? (fun v => (dictGet mapping v).isSome) with
      | none =>
        exfalso
        have hv1b : v1 ∈ pi2 (variantsOf name) := (h2 _).mem_iff.mpr hv1
        exact absurd hp1 (by simpa using List.find?_eq_none.mp hf2 v1 hv1b)
      | some v2 =>
        have hp2 : (dictGet mapping v2).isSome = true := by
          simpa using List.find?_some hf2
        have hv2 : v2 ∈ variantsOf name :=
          (h2 _).mem_iff.mp (List.mem_of_find?_eq_some hf2)
        exact hagree v1 hv1 v2 hv2 hp1 hp2
  rw [resolveProvince, resolveProvince, hfind]

theorem unresolvedWith_enum_congr (mapping : List (String × String)) (data : List Item)
    (pi1 pi2 : List String → List String)
    (h1 : ValidEnum pi1) (h2 : ValidEnum pi2) (hvar : VariantsAgree mapping data) :
    unresolvedWith pi1 mapping data = unresolvedWith pi2 mapping data := by
  rw [unresolvedWith, unresolvedWith]
  apply List.filterMap_congr
  intro p hp
  rw [resolveProvince_enum_congr mapping p.2 pi1 pi2 h1 h2 (hvar p hp)]

theorem municipalityOf_enum_congr (mapping : List (String × String)) (data : List Item)
    (pi1 pi2 : List String → List String)
    (h1 : ValidEnum pi1) (h2 : ValidEnum pi2) (hinj : CfInjOn data)
    (p : String × String)
    (hagree : ∀ v1 ∈ variantsOf p.2, ∀ v2 ∈ variantsOf p.2,
      (dictGet mapping v1).isSome = true → (dictGet mapping v2).isSome = true →
      dictGet mapping v1 = dictGet mapping v2) :
    municipalityOf mapping (nbSetsOf data) pi1 p =
      municipalityOf mapping (nbSetsOf data) pi2 p := by
  rw [municipalityOf, municipalityOf,
    resolveProvince_enum_congr mapping p.2 pi1 pi2 h1 h2 hagree]
  have hsort : List.insertionSort cfLe (pi1 (nbGet (nbSetsOf data) p.1)) =
      List.insertionSort cfLe (pi2 (nbGet (nbSetsOf data) p.1)) :=
    insertionSort_cf_eq (nbGet (nbSetsOf data) p.1) _ _ (h1 _) (h2 _)
      (nbGet_inj data hinj p.1)
  rw [hsort]

/-- Feed whose single municipality has two neighbourhood titles equal under
casefold but distinct as strings. -/
def feedCaseDup : List Item :=
  [⟨some "GM0003", some "Appingedam", none⟩,
   ⟨some "BU00030001", some "Centrum", some "GM0003"⟩,
   ⟨some "BU00030002", some "CENTRUM", some "GM0003"⟩]

/-- Reference table binding both the suffix-stripped and the
hyphen-replaced variant of one feed name, to different provinces. -/
def tablesVar : List (List (List String)) :=
  [[["Gemeente", "Provincie"],
    ["A-B", "Groningen"],
    ["A B ('s Gravenhage)", "Friesland"]]]

/-- Feed whose single region name resolves only through the fallback
variants, two of which are present in the mapping with different
provinces. -/
def feedVariants : List Item :=
  [⟨some "GM0001", some "A-B ('s-Gravenhage)", none⟩,
   ⟨some "BU00010001", some "Centrum", some "GM0001"⟩]

/-- C8 counterexample: the run's output is not a function of the source
payloads alone.  Both `set` iterations of the script leak the runtime's
hash-randomized order: enumerating a neighbourhood set with two
casefold-equal titles in different orders changes the output tree, and
enumerating the fallback-variants set in different orders changes which
variant supplies the province (here Groningen versus Friesland) and with it
the whole tree.  Each enumeration used is a permutation of the respective
support list, as CPython's set iteration always is. -/
theorem spec_c8_cex_enumeration_dependent :
    ((List.reverse (nbGet (nbSetsOf feedCaseDup) "GM0003")).Perm
      (nbGet (nbSetsOf feedCaseDup) "GM0003") ∧
     mainActions feedCaseDup tablesEx id ≠
      mainActions feedCaseDup tablesEx List.reverse) ∧
    ((List.reverse (variantsOf "A-B ('s-Gravenhage)")).Perm
      (variantsOf "A-B ('s-Gravenhage)") ∧
     mainActions feedVariants tablesVar id ≠
      mainActions feedVariants tablesVar List.reverse) :=
  ⟨⟨List.reverse_perm _, by decide⟩, ⟨List.reverse_perm _, by decide⟩⟩

/-- C8 amended: the pipeline is deterministic up to the runtime's
set-enumeration order; two runs over identical payloads coincide
byte-for-byte whenever that order cannot matter — casefold injective on each
neighbourhood set (no two titles differing only in case) and the
fallback-variant lookups never disagreeing on a province — and every
successful run clears and recreates the destination root before any
write. -/
theorem spec_c8_amended_deterministic (data : List Item)
    (tables : List (List (List String))) (pi1 pi2 : List String → List String)
    (h1 : ValidEnum pi1) (h2 : ValidEnum pi2) (hinj : CfInjOn data)
    (hvar : ∀ mapping, loadMunicipalityProvinces tables = .ok mapping →
      VariantsAgree mapping data) :
    mainActions data tables pi1 = mainActions data tables pi2 ∧
    (∀ acts, mainActions data tables pi1 = .ok acts →
      ∃ rest, acts = FsAct.clearRoot :: FsAct.mkdirRoot :: rest) := by
  have hbuild : buildMunicipalityIndex data tables pi1 =
      buildMunicipalityIndex data tables pi2 := by
    rw [buildMunicipalityIndex, buildMunicipalityIndex]
    cases hload : loadMunicipalityProvinces tables with
    | error e => rfl
    | ok mapping =>
      dsimp only
      rw [unresolvedWith_enum_congr mapping data pi1 pi2 h1 h2 (hvar mapping hload)]
      by_cases hu : unresolvedWith pi2 mapping data = []
      · rw [if_pos hu, if_pos hu]
        congr 1
        exact List.filterMap_congr
          (fun p hp => municipalityOf_enum_congr mapping data pi1 pi2 h1 h2 hinj p
            (hvar mapping hload p hp))
      · rw [if_neg hu, if_neg hu]
  constructor
  · rw [mainActions, mainActions, hbuild]
  · intro acts hacts
    rw [mainActions] at hacts
    by_cases hd : data = []
    · rw [if_pos hd] at hacts; cases hacts
    · rw [if_neg hd] at hacts
      cases hb : buildMunicipalityIndex data tables pi1 with
      | error e => rw [hb] at hacts; cases hacts
      | ok ms =>
        rw [hb] at hacts
        exact ⟨ms.filterMap writeAct, (Except.ok.inj hacts).symm⟩

theorem spec_c8_amended_deterministic_witness :
    (mainActions feedAppingedam tablesEx id =
      mainActions feedAppingedam tablesEx List.reverse ∧
    (∀ acts, mainActions feedAppingedam tablesEx id = .ok acts →
      ∃ rest, acts = FsAct.clearRoot :: FsAct.mkdirRoot :: rest)) :=
  spec_c8_amended_deterministic feedAppingedam tablesEx id List.reverse
    (fun l => List.Perm.refl l) (fun l => List.reverse_perm l) (by decide)
    (by
      intro mapping hm
      have he : ([("Amsterdam", "North Holland")] ++ MUNICIPALITY_OVERRIDES) = mapping :=
        Except.ok.inj ((by decide :
          loadMunicipalityProvinces tablesEx =
            .ok ([("Amsterdam", "North Holland")] ++
              MUNICIPALITY_OVERRIDES)).symm.trans hm)
      rw [← he]
      decide)

/-- Modelled from the spec: the capital-city variant's script is not under
`src/`; the values of one column of its tabular feed, sampled across the
rows (missing cells read as empty). -/
def columnValues (rows : List (List String)) (i : Nat) : List String :=
  rows.map (fun r => r.getD i "")

/-- Modelled from the spec: the capital-city variant's script is not under
`src/`; the value cardinality of a column is its number of distinct sampled
values. -/
def columnCardinality (rows : List (List String)) (i : Nat) : Nat :=
  (columnValues rows i).dedup.length

/-- Modelled from the spec: the capital-city variant's script is not under
`src/`; its name-column selection first scans the columns for one
recognizable by a known code prefix or identity label, and otherwise falls
back to the first column whose value cardinality exceeds 20. -/
def detectNameColumn (recognizable : Nat → Bool) (rows : List (List String))
    (numCols : Nat) : Option Nat :=
  match (List.range numCols).find? recognizable with
  | some i => some i
  | none =>
    (List.range numCols).find? (fun i => decide (20 < columnCardinality rows i))

theorem find?_eq_some_of_unique {p : Nat → Bool} :
    ∀ (l : List Nat) (j : Nat), j ∈ l → p j = true →
      (∀ i ∈ l, p i = true → i = j) → l.find? p = some j := by
  intro l
  induction l with
  | nil => intro j hj _ _; simp at hj
  | cons x t ih =>
    intro j hj hpj huniq
    by_cases hx : p x = true
    · have hxj : x = j := huniq x (List.mem_cons_self x t) hx
      rw [List.find?_cons_of_pos _ hx, hxj]
    · rw [List.find?_cons_of_neg _ hx]
      have hjt : j ∈ t := by
        rcases List.mem_cons.mp hj with h | h
        · subst h; exact absurd hpj hx
        · exact h
      exact ih j hjt hpj (fun i hi hpi => huniq i (List.mem_cons_of_mem x hi) hpi)

/-- C9: when no column is recognizable by code prefix or identity label, the
fallback selects the (unique) column whose value cardinality exceeds 20 over
every lower-cardinality column. -/
theorem spec_c9_cardinality_fallback (recognizable : Nat → Bool)
    (rows : List (List String)) (numCols j : Nat)
    (hj : j < numCols)
    (hno : ∀ i, i < numCols → recognizable i = false)
    (hcard : 20 < columnCardinality rows j)
    (hothers : ∀ i, i < numCols → i ≠ j → columnCardinality rows i ≤ 20) :
    detectNameColumn recognizable rows numCols = some j := by
  rw [detectNameColumn]
  have hnone : (List.range numCols).find? recognizable = none := by
    rw [List.find?_eq_none]
    intro x hx
    rw [hno x (List.mem_range.mp hx)]
    simp
  rw [hnone]
  dsimp only
  refine find?_eq_some_of_unique (List.range numCols) j (List.mem_range.mpr hj)
    (by simpa using hcard) ?_
  intro i hi hpi
  by_contra hne
  exact absurd (of_decide_eq_true hpi)
    (not_lt.mpr (hothers i (List.mem_range.mp hi) hne))

/-- Two-column feed: a constant code-like column and a 21-valued name
column. -/
def rowsC9 : List (List String) :=
  [["k", "v01"], ["k", "v02"], ["k", "v03"], ["k", "v04"], ["k", "v05"],
   ["k", "v06"], ["k", "v07"], ["k", "v08"], ["k", "v09"], ["k", "v10"],
   ["k", "v11"], ["k", "v12"], ["k", "v13"], ["k", "v14"], ["k", "v15"],
   ["k", "v16"], ["k", "v17"], ["k", "v18"], ["k", "v19"], ["k", "v20"],
   ["k", "v21"]]

theorem spec_c9_cardinality_fallback_witness :
    (1 < 2) ∧
    (∀ i, i < 2 → (fun _ : Nat => false) i = false) ∧
    20 < columnCardinality rowsC9 1 ∧
    (∀ i, i < 2 → i ≠ 1 → columnCardinality rowsC9 i ≤ 20) ∧
    detectNameColumn (fun _ => false) rowsC9 2 = some 1 :=
  ⟨by decide, by decide, by decide, by decide,
    spec_c9_cardinality_fallback (fun _ => false) rowsC9 2 1
      (by decide) (by decide) (by decide) (by decide)⟩
